import Mathlib

/-!
Tweet clustering (`searchContent.go`).

A shallow embedding of the vocabulary builder `MakeDict`, the similarity `Distance`,
the greedy clusterer `CalculateRelation` and their driver `Cluster`, with the
package-level variables threaded as an explicit `Globals` value and `log.Fatal` as the
error of `Except`.
-/

/-- Go `float64`: an IEEE-754 binary64 value.  A finite value is
`(-1)^neg * m * 2^e`, kept in the canonical form of the encoding
(`m < 2^53`, `-1074 ≤ e ≤ 971`, and `2^52 ≤ m` unless `e = -1074`). -/
inductive F64 where
  | nan
  | inf (neg : Bool)
  | fin (neg : Bool) (m : Nat) (e : Int)
deriving DecidableEq, Repr

namespace F64

/-- Number of binary digits of `n`, with the recursion driven by `fuel`. -/
def bitLenAux : Nat → Nat → Nat
  | 0, _ => 0
  | fuel + 1, n => if n = 0 then 0 else bitLenAux fuel (n / 2) + 1

/-- Number of binary digits of `n`. -/
def bitLen (n : Nat) : Nat := bitLenAux n n

/-- Newton iteration for the integer square root, started above the root. -/
def isqrtAux : Nat → Nat → Nat → Nat
  | 0, _, g => g
  | fuel + 1, n, g =>
    let g' := (g + n / g) / 2
    if g' < g then isqrtAux fuel n g' else g

/-- Integer square root: the largest `r` with `r * r ≤ n`. -/
def isqrt (n : Nat) : Nat :=
  if n = 0 then 0 else isqrtAux (bitLen n + 2) n (2 ^ ((bitLen n + 1) / 2))

/-- Round the rational `n / d` (`d > 0`) to the nearest binary64, ties to even. -/
def roundRat (neg : Bool) (n d : Nat) : F64 :=
  if n = 0 then fin neg 0 (-1074)
  else
    let e1 : Int := (bitLen n : Int) - (bitLen d : Int) - 53
    let scaled : Int → Nat × Nat := fun e =>
      if 0 ≤ e then (n, d * 2 ^ e.toNat) else (n * 2 ^ (-e).toNat, d)
    let e2 : Int := if (scaled e1).1 / (scaled e1).2 < 2 ^ 53 then e1 else e1 + 1
    let e : Int := if e2 < -1074 then -1074 else e2
    let num := (scaled e).1
    let den := (scaled e).2
    let q := num / den
    let r := num % den
    let q1 := if den < 2 * r ∨ (2 * r = den ∧ q % 2 = 1) then q + 1 else q
    let m := if q1 = 2 ^ 53 then 2 ^ 52 else q1
    let e3 : Int := if q1 = 2 ^ 53 then e + 1 else e
    if 971 < e3 then inf neg else fin neg m e3

/-- Round `n * 2^e` to the nearest binary64. -/
def roundScaled (neg : Bool) (n : Nat) (e : Int) : F64 :=
  if 0 ≤ e then roundRat neg (n * 2 ^ e.toNat) 1 else roundRat neg n (2 ^ (-e).toNat)

/-- The constant `float64(0)`. -/
def zero : F64 := fin false 0 (-1074)

/-- The constant `float64(1.0)`. -/
def one : F64 := fin false (2 ^ 52) (-52)

/-- The integer `(-1)^neg * m * 2^(e - lo)`, for `lo ≤ e`. -/
def scaledInt (neg : Bool) (m : Nat) (e lo : Int) : Int :=
  if neg then -((m * 2 ^ (e - lo).toNat : Nat) : Int) else ((m * 2 ^ (e - lo).toNat : Nat) : Int)

/-- The sum `a + b`, rounded once. -/
def add : F64 → F64 → F64
  | nan, _ => nan
  | _, nan => nan
  | inf s, inf t => if s = t then inf s else nan
  | inf s, fin _ _ _ => inf s
  | fin _ _ _, inf t => inf t
  | fin s m e, fin t m' e' =>
    let lo := if e ≤ e' then e else e'
    let sum := scaledInt s m e lo + scaledInt t m' e' lo
    if sum = 0 then fin (s && t) 0 (-1074)
    else roundScaled (decide (sum < 0)) sum.natAbs lo

/-- The product `a * b`, rounded once. -/
def mul : F64 → F64 → F64
  | nan, _ => nan
  | _, nan => nan
  | inf s, inf t => inf (xor s t)
  | inf s, fin t m _ => if m = 0 then nan else inf (xor s t)
  | fin s m _, inf t => if m = 0 then nan else inf (xor s t)
  | fin s m e, fin t m' e' => roundScaled (xor s t) (m * m') (e + e')

/-- The quotient `a / b`, rounded once; a zero divisor gives an infinity or NaN. -/
def div : F64 → F64 → F64
  | nan, _ => nan
  | _, nan => nan
  | inf _, inf _ => nan
  | inf s, fin t _ _ => inf (xor s t)
  | fin s _ _, inf t => fin (xor s t) 0 (-1074)
  | fin s m e, fin t m' e' =>
    if m' = 0 then (if m = 0 then nan else inf (xor s t))
    else roundRat (xor s t) (m * 2 ^ (e - e').toNat) (m' * 2 ^ (e' - e).toNat)

/-- Go `math.Sqrt`, correctly rounded: the root of `m * 2^k` is taken on at least 110
bits, and an inexact root is rounded from the midpoint of its two integer neighbours. -/
def sqrt : F64 → F64
  | nan => nan
  | inf s => if s then nan else inf false
  | fin s m e =>
    if m = 0 then fin s 0 (-1074)
    else if s then nan
    else
      let k : Int := if (e - 110) % 2 = 0 then 110 else 111
      let n := m * 2 ^ k.toNat
      let r := isqrt n
      if r * r = n then roundScaled false r ((e - k) / 2)
      else roundScaled false (2 * r + 1) ((e - k) / 2 - 1)

/-- The comparison `a > b` of Go: false as soon as one side is NaN. -/
def gt : F64 → F64 → Bool
  | nan, _ => false
  | _, nan => false
  | inf s, inf t => !s && t
  | inf s, fin _ _ _ => !s
  | fin _ _ _, inf t => t
  | fin s m e, fin t m' e' =>
    let lo := if e ≤ e' then e else e'
    decide (scaledInt t m' e' lo < scaledInt s m e lo)

end F64

/-- Go `map`: the entries in the order the keys were first stored, one entry per key.
The functions below assume but do not require that the keys are distinct.  Go leaves the
order of `range` over a map unspecified; the model visits the entries in stored order. -/
abbrev GoMap (κ ν : Type) := List (κ × ν)

namespace GoMap

variable {κ ν : Type} [DecidableEq κ]

/-- The comma-ok lookup `v, ok := m[k]`. -/
def find? : GoMap κ ν → κ → Option ν
  | [], _ => none
  | (k', v) :: m, k => if k' = k then some v else find? m k

/-- The assignment `m[k] = v`. -/
def insert : GoMap κ ν → κ → ν → GoMap κ ν
  | [], k, v => [(k, v)]
  | (k', v') :: m, k, v => if k' = k then (k', v) :: m else (k', v') :: insert m k v

/-- The keys, in the order `range` visits them in this model. -/
def keys (m : GoMap κ ν) : List κ := m.map Prod.fst

end GoMap

deriving instance DecidableEq for Except

structure User where
  Id : Int
  IdStr : String
  Name : String
  ScreenName : String
deriving DecidableEq, Repr

structure Tweet where
  CreatedAt : String
  FavoriteCount : Int
  Text : String
  User : User
deriving DecidableEq, Repr

/-- The search response; its `search_metadata` is never read by the clustering code
and is left out. -/
structure SearchResponse where
  Tweets : List Tweet
deriving DecidableEq, Repr

structure ResultElement where
  OneTweet : Tweet
  Vector : GoMap String F64
deriving DecidableEq, Repr

/-- The package-level variables `Dict`, `Correlation` and `Count`. -/
structure Globals where
  Dict : GoMap String F64
  Correlation : F64
  Count : Nat
deriving DecidableEq, Repr

/-- The state the program starts in: `Dict` empty, `Correlation` 0.5, `Count` 0. -/
def Globals.init : Globals := ⟨[], F64.fin false (2 ^ 52) (-53), 0⟩

/-- Go `unicode.IsSpace`. -/
def isSpace (c : Char) : Bool :=
  let n := c.toNat
  (9 ≤ n && n ≤ 13) || n == 32 || n == 0x85 || n == 0xA0 || n == 0x1680 ||
  (0x2000 ≤ n && n ≤ 0x200a) || n == 0x2028 || n == 0x2029 || n == 0x202f ||
  n == 0x205f || n == 0x3000

/-- The scan of `strings.Fields`: `cur` holds the current token, last character first. -/
def fieldsAux : List Char → List Char → List String
  | [], cur => if cur = [] then [] else [String.mk cur.reverse]
  | c :: cs, cur =>
    if isSpace c then
      (if cur = [] then fieldsAux cs [] else String.mk cur.reverse :: fieldsAux cs [])
    else fieldsAux cs (c :: cur)

/-- Go `strings.Fields` on a valid UTF-8 string. -/
def Fields (s : String) : List String := fieldsAux s.data []

/-- The value `m[k]` of a `map[string]float64`: 0 when the key is absent. -/
def GoMap.valueAt (m : GoMap String F64) (k : String) : F64 := (m.find? k).getD F64.zero

/-- The value `m[j]` of the result map: the nil slice when the key is absent. -/
def GoMap.slice (m : GoMap Nat (List ResultElement)) (j : Nat) : List ResultElement :=
  (m.find? j).getD []

/-- The function `MakeDict`: the loop starts at index 1 and stores 0 under every word of
every tweet it visits.  The new value of the global `Dict` is returned. -/
def MakeDict (Dict : GoMap String F64) (sr : SearchResponse) : GoMap String F64 :=
  (sr.Tweets.drop 1).foldl
    (fun d t => (Fields t.Text).foldl (fun d w => GoMap.insert d w F64.zero) d) Dict

/-- One pass of the accumulation loop of `Distance` over the key `k`; every product and
every sum is rounded on its own. -/
def distanceStep (gDict lDict : GoMap String F64) (acc : F64 × F64 × F64) (k : String) :
    F64 × F64 × F64 :=
  (F64.add acc.1 (F64.mul (gDict.valueAt k) (lDict.valueAt k)),
   F64.add acc.2.1 (F64.mul (gDict.valueAt k) (gDict.valueAt k)),
   F64.add acc.2.2 (F64.mul (lDict.valueAt k) (lDict.valueAt k)))

/-- The slice `keys` of `Distance`: `len(Dict)` empty strings, then the keys of `gDict`. -/
def distanceKeys (Dict gDict : GoMap String F64) : List String :=
  List.replicate Dict.length "" ++ gDict.keys

/-- The function `Distance`; `Dict` is the global it reads for the length of `keys`, and
`log.Fatal` is the error. -/
def Distance (Dict gDict lDict : GoMap String F64) : Except String F64 :=
  if gDict.length ≠ lDict.length then .error "Vector size does not match!\n"
  else
    let acc := (distanceKeys Dict gDict).foldl (distanceStep gDict lDict)
      (F64.zero, F64.zero, F64.zero)
    .ok (F64.div acc.1 (F64.mul (F64.sqrt acc.2.1) (F64.sqrt acc.2.2)))

/-- The vector built for one tweet: a copy of `Dict` with every word of the text set to 1. -/
def makeVector (Dict : GoMap String F64) (t : Tweet) : GoMap String F64 :=
  (Fields t.Text).foldl (fun v w => GoMap.insert v w F64.one)
    (Dict.foldl (fun v kv => GoMap.insert v kv.1 kv.2) [])

/-- The inner loop over `k`: the index of the first member whose distance exceeds
`Correlation`. -/
def scanMembers (g : Globals) (v : GoMap String F64) :
    List ResultElement → Nat → Except String (Option Nat)
  | [], _ => .ok none
  | e :: es, k =>
    match Distance g.Dict e.Vector v with
    | .error msg => .error msg
    | .ok d => if F64.gt d g.Correlation then .ok (some k) else scanMembers g v es (k + 1)

/-- The loop over `j`: the first `(j, k)` at which the inner loop matches. -/
def scanClusters (g : Globals) (resultMap : GoMap Nat (List ResultElement))
    (v : GoMap String F64) : List Nat → Except String (Option (Nat × Nat))
  | [] => .ok none
  | j :: js =>
    match scanMembers g v (resultMap.slice j) 0 with
    | .error msg => .error msg
    | .ok (some k) => .ok (some (j, k))
    | .ok none => scanClusters g resultMap v js

/-- The statement `resultMap[k] = append(resultMap[k], e)`. -/
def appendTo (resultMap : GoMap Nat (List ResultElement)) (k : Nat) (e : ResultElement) :
    GoMap Nat (List ResultElement) :=
  GoMap.insert resultMap k (resultMap.slice k ++ [e])

/-- One pass of the outer loop of `CalculateRelation`. -/
def relationStep (st : GoMap Nat (List ResultElement) × Globals) (t : Tweet) :
    Except String (GoMap Nat (List ResultElement) × Globals) :=
  let LocalElement : ResultElement := ⟨t, makeVector st.2.Dict t⟩
  match scanClusters st.2 st.1 LocalElement.Vector (List.range st.2.Count) with
  | .error msg => .error msg
  | .ok (some jk) => .ok (appendTo st.1 jk.2 LocalElement, st.2)
  | .ok none =>
    .ok (appendTo st.1 st.2.Count LocalElement, { st.2 with Count := st.2.Count + 1 })

/-- The loop of `CalculateRelation` over the tweets it visits. -/
def relationLoop : List Tweet → GoMap Nat (List ResultElement) × Globals →
    Except String (GoMap Nat (List ResultElement) × Globals)
  | [], st => .ok st
  | t :: ts, st =>
    match relationStep st t with
    | .error msg => .error msg
    | .ok st' => relationLoop ts st'

/-- The function `CalculateRelation`: the outer loop starts at index 1 with an empty
result map.  The result map is returned together with the globals the run leaves. -/
def CalculateRelation (g : Globals) (sr : SearchResponse) :
    Except String (GoMap Nat (List ResultElement) × Globals) :=
  relationLoop (sr.Tweets.drop 1) ([], g)

/-- The function `Cluster`: `MakeDict`, then `CalculateRelation`. -/
def Cluster (g : Globals) (sr : SearchResponse) :
    Except String (GoMap Nat (List ResultElement) × Globals) :=
  CalculateRelation { g with Dict := MakeDict g.Dict sr } sr

/-! ## Sample inputs -/

/-- A tweet with the given text and empty metadata. -/
def sampleTweet (text : String) : Tweet := ⟨"", 0, text, ⟨0, "", "", ""⟩⟩

/-- The batch whose tweets carry the given texts, in order. -/
def sampleBatch (texts : List String) : SearchResponse := ⟨texts.map sampleTweet⟩

/-- The texts of the members of every cluster of a result map, entry by entry. -/
def memberTexts (resultMap : GoMap Nat (List ResultElement)) : List (Nat × List String) :=
  resultMap.map (fun p => (p.1, p.2.map (fun e => e.OneTweet.Text)))

/-- The threshold 0.25. -/
def quarter : F64 := F64.fin false (2 ^ 52) (-54)

/-! ## Invariant of the clustering loop -/

/-- A member as `CalculateRelation` builds it over the vocabulary `D`: its vector is the
vector of its tweet, and every word of the tweet is a key of `D`. -/
def Good (D : GoMap String F64) (e : ResultElement) : Prop :=
  e.Vector = makeVector D e.OneTweet ∧ ∀ x ∈ Fields e.OneTweet.Text, x ∈ D.keys

/-- Every member of every cluster of the result map is `Good`. -/
def AllGood (D : GoMap String F64) (resultMap : GoMap Nat (List ResultElement)) : Prop :=
  ∀ p ∈ resultMap, ∀ e ∈ p.2, Good D e

/-- The cosine similarity as the specification words it: the dot product over the product
of the Euclidean norms, every sum taken once over each key of `a`. -/
def cosineSimilarity (a b : GoMap String F64) : F64 :=
  let dot := a.keys.foldl (fun s k => F64.add s (F64.mul (a.valueAt k) (b.valueAt k))) F64.zero
  let sqA := a.keys.foldl (fun s k => F64.add s (F64.mul (a.valueAt k) (a.valueAt k))) F64.zero
  let sqB := a.keys.foldl (fun s k => F64.add s (F64.mul (b.valueAt k) (b.valueAt k))) F64.zero
  F64.div dot (F64.mul (F64.sqrt sqA) (F64.sqrt sqB))

/-- A batch whose fourth tweet is close to the second member of cluster 0 only. -/
def slipBatch : SearchResponse := sampleBatch ["skip", "a b", "a b c", "b c d"]

/-- The globals of the run on `slipBatch` once "a b" and "a b c" are clustered. -/
def slipGlobals : Globals := { Globals.init with Dict := MakeDict [] slipBatch, Count := 1 }

/-- The member built for a text of `slipBatch`. -/
def slipElement (text : String) : ResultElement :=
  ⟨sampleTweet text, makeVector slipGlobals.Dict (sampleTweet text)⟩

/-- The batch `slipBatch` followed by a tweet that shares no word with the others. -/
def crowdedBatch : SearchResponse := sampleBatch ["skip", "a b", "a b c", "b c d", "z"]

/-- The globals of the run on `crowdedBatch` once its first three visited tweets are
clustered. -/
def crowdedGlobals : Globals :=
  { Globals.init with Dict := MakeDict [] crowdedBatch, Count := 1 }

/-- The member built for a text of `crowdedBatch`. -/
def crowdedElement (text : String) : ResultElement :=
  ⟨sampleTweet text, makeVector crowdedGlobals.Dict (sampleTweet text)⟩

/-- A batch whose last tweet is close to the third member of cluster 0 only. -/
def gapBatch : SearchResponse := sampleBatch ["skip", "a b", "a b", "a b c d", "c d"]

/-- A batch that clusters into fewer ids under the threshold 0.5 than under 0.25. -/
def thresholdBatch : SearchResponse :=
  sampleBatch ["skip", "a b c", "b c d", "c d e f", "z", "e f"]

/-- Every member of the result map, cluster after cluster in stored order. -/
def allMembers : GoMap Nat (List ResultElement) → List ResultElement
  | [] => []
  | p :: m => p.2 ++ allMembers m

/-- The pairs of vectors the inner loop hands to `Distance`, in the order of the calls. -/
def scanMembersCalls (g : Globals) (v : GoMap String F64) :
    List ResultElement → List (GoMap String F64 × GoMap String F64)
  | [] => []
  | e :: es =>
    (e.Vector, v) ::
      (match Distance g.Dict e.Vector v with
       | .error _ => []
       | .ok d => if F64.gt d g.Correlation then [] else scanMembersCalls g v es)

/-- The pairs of vectors the loop over `j` hands to `Distance`. -/
def scanClustersCalls (g : Globals) (resultMap : GoMap Nat (List ResultElement))
    (v : GoMap String F64) : List Nat → List (GoMap String F64 × GoMap String F64)
  | [] => []
  | j :: js =>
    scanMembersCalls g v (resultMap.slice j) ++
      (match scanMembers g v (resultMap.slice j) 0 with
       | .ok none => scanClustersCalls g resultMap v js
       | _ => [])

/-- The pairs of vectors handed to `Distance` while the outer loop visits the tweets. -/
def relationLoopCalls : List Tweet → GoMap Nat (List ResultElement) × Globals →
    List (GoMap String F64 × GoMap String F64)
  | [], _ => []
  | t :: ts, st =>
    scanClustersCalls st.2 st.1 (makeVector st.2.Dict t) (List.range st.2.Count) ++
      (match relationStep st t with
       | .error _ => []
       | .ok st' => relationLoopCalls ts st')

/-- Every pair of vectors handed to `Distance` during a run of `Cluster`. -/
def clusterCalls (g : Globals) (sr : SearchResponse) :
    List (GoMap String F64 × GoMap String F64) :=
  relationLoopCalls (sr.Tweets.drop 1) ([], { g with Dict := MakeDict g.Dict sr })

/-- Go `strings.Replace(s, "\n", " ", -1)`. -/
def replaceNewlines (s : String) : String :=
  String.mk (s.data.map (fun c => if c.toNat = 10 then Char.ofNat 32 else c))

/-- The string `PrintResult` builds for member `e` of cluster `i`; `Nat.repr` is
`strconv.Itoa` on a non-negative `int`. -/
def resultLine (i : Nat) (e : ResultElement) : String :=
  Nat.repr i ++ "\t" ++ e.OneTweet.User.ScreenName ++ "\t" ++ e.OneTweet.CreatedAt ++ "\t" ++
    replaceNewlines e.OneTweet.Text ++ "\n"

/-- The loop of `PrintResult` over `i`. -/
def printLoop (m : GoMap Nat (List ResultElement)) : List Nat → List String
  | [] => []
  | i :: is => (m.slice i).map (resultLine i) ++ ["#\n"] ++ printLoop m is

/-- The function `PrintResult`: the strings it hands to `fmt.Printf`, in order.  `Printf`
writes a string that holds no `%` as it is. -/
def PrintResult (g : Globals) (m : GoMap Nat (List ResultElement)) : List String :=
  printLoop m (List.range g.Count)

/-- The conversion `float64(n)`. -/
def F64.ofNat (n : Nat) : F64 := F64.roundScaled false n 0

/-- The value `n / (√n · √n)` in `float64`. -/
def selfSimilarity (n : Nat) : F64 :=
  F64.div (F64.ofNat n) (F64.mul (F64.sqrt (F64.ofNat n)) (F64.sqrt (F64.ofNat n)))

/-- The number of coordinates of a vector that are 1.0. -/
def ones (v : GoMap String F64) : Nat := (v.map Prod.snd).count F64.one

/-- A positive normal `float64` below 2^53: a 53-bit `m` with a negative exponent. -/
def F64.isSmallNormal : F64 → Bool
  | .fin false m e => decide (2 ^ 52 ≤ m) && decide (m < 2 ^ 53) && decide (-1074 ≤ e) &&
      decide (e < 0)
  | _ => false

/-! ## Facts about the map operations -/

namespace GoMap

variable {κ ν : Type} [DecidableEq κ]

theorem find?_insert_self (m : GoMap κ ν) (k : κ) (v : ν) :
    (m.insert k v).find? k = some v := by
  induction m with
  | nil => simp [insert, find?]
  | cons p m ih =>
    obtain ⟨k', v'⟩ := p
    by_cases h : k' = k
    · simp [insert, find?, h]
    · simp [insert, find?, h, ih]

theorem find?_insert_ne (m : GoMap κ ν) {k w : κ} (v : ν) (h : k ≠ w) :
    (m.insert k v).find? w = m.find? w := by
  induction m with
  | nil => simp [insert, find?, h]
  | cons p m ih =>
    obtain ⟨k', v'⟩ := p
    by_cases hk : k' = k
    · subst hk
      simp [insert, find?, h]
    · by_cases hw : k' = w
      · subst hw
        simp [insert, find?, hk]
      · simp [insert, find?, hk, hw, ih]

theorem mem_keys_insert (m : GoMap κ ν) (k w : κ) (v : ν) :
    w ∈ (m.insert k v).keys ↔ w = k ∨ w ∈ m.keys := by
  induction m with
  | nil => simp [insert, keys]
  | cons p m ih =>
    obtain ⟨k', v'⟩ := p
    by_cases hk : k' = k
    · subst hk
      simp [insert, keys]
    · simp only [keys] at ih
      simp [insert, keys, hk, ih]
      tauto

theorem length_insert_of_mem (m : GoMap κ ν) (k : κ) (v : ν) (h : k ∈ m.keys) :
    (m.insert k v).length = m.length := by
  induction m with
  | nil => simp [keys] at h
  | cons p m ih =>
    obtain ⟨k', v'⟩ := p
    by_cases hk : k' = k
    · simp [insert, hk]
    · have hm : k ∈ keys m := by
        simp only [keys, List.map_cons, List.mem_cons] at h
        rcases h with h | h
        · exact absurd h.symm hk
        · exact h
      simp [insert, hk, ih hm]

theorem insert_eq_self (m : GoMap κ ν) (k : κ) (v : ν) (h : m.find? k = some v) :
    m.insert k v = m := by
  induction m with
  | nil => simp [find?] at h
  | cons p m ih =>
    obtain ⟨k', v'⟩ := p
    by_cases hk : k' = k
    · simp only [find?, hk, if_true, Option.some.injEq] at h
      simp [insert, hk, h]
    · simp only [find?, hk, if_false] at h
      simp [insert, hk, ih h]

theorem find?_isSome_of_mem_keys (m : GoMap κ ν) (k : κ) (h : k ∈ m.keys) :
    ∃ v, m.find? k = some v := by
  induction m with
  | nil => simp [keys] at h
  | cons p m ih =>
    obtain ⟨k', v'⟩ := p
    by_cases hk : k' = k
    · exact ⟨v', by simp [find?, hk]⟩
    · have hm : k ∈ keys m := by
        simp only [keys, List.map_cons, List.mem_cons] at h
        rcases h with h | h
        · exact absurd h.symm hk
        · exact h
      obtain ⟨v, hv⟩ := ih hm
      exact ⟨v, by simp [find?, hk, hv]⟩

theorem mem_of_find? (m : GoMap κ ν) (k : κ) (v : ν) (h : m.find? k = some v) :
    (k, v) ∈ m := by
  induction m with
  | nil => simp [find?] at h
  | cons p m ih =>
    obtain ⟨k', v'⟩ := p
    by_cases hk : k' = k
    · simp only [find?, hk, if_true, Option.some.injEq] at h
      simp [hk, h]
    · simp only [find?, hk, if_false] at h
      exact List.mem_cons_of_mem _ (ih h)

theorem mem_insert (m : GoMap κ ν) (k : κ) (v : ν) (p : κ × ν) (h : p ∈ m.insert k v) :
    p = (k, v) ∨ p ∈ m := by
  induction m with
  | nil => simpa [insert] using h
  | cons q m ih =>
    obtain ⟨k', v'⟩ := q
    by_cases hk : k' = k
    · simp only [insert, hk, if_true, List.mem_cons] at h
      rcases h with h | h
      · exact Or.inl h
      · exact Or.inr (List.mem_cons_of_mem _ h)
    · simp only [insert, hk, if_false, List.mem_cons] at h
      rcases h with h | h
      · exact Or.inr (by simp [h])
      · rcases ih h with h' | h'
        · exact Or.inl h'
        · exact Or.inr (List.mem_cons_of_mem _ h')

end GoMap

/-! ## Storing a list of words -/

theorem mem_keys_insertAll (c : F64) (ws : List String) (m : GoMap String F64) (x : String) :
    x ∈ (ws.foldl (fun v w => GoMap.insert v w c) m).keys ↔ x ∈ ws ∨ x ∈ m.keys := by
  induction ws generalizing m with
  | nil => simp
  | cons w ws ih =>
    rw [List.foldl_cons, ih, GoMap.mem_keys_insert]
    simp only [List.mem_cons]
    tauto

theorem find?_insertAll (c : F64) (ws : List String) (m : GoMap String F64) (x : String) :
    (ws.foldl (fun v w => GoMap.insert v w c) m).find? x = if x ∈ ws then some c else m.find? x := by
  induction ws generalizing m with
  | nil => simp
  | cons w ws ih =>
    rw [List.foldl_cons, ih]
    by_cases hx : x ∈ ws
    · simp [hx]
    · by_cases hw : w = x
      · subst hw
        simp [hx, GoMap.find?_insert_self]
      · have hxw : ¬ x = w := fun h => hw h.symm
        simp [hx, hxw, GoMap.find?_insert_ne _ _ hw]

theorem length_insertAll (c : F64) (ws : List String) (m : GoMap String F64)
    (h : ∀ w ∈ ws, w ∈ m.keys) :
    (ws.foldl (fun v w => GoMap.insert v w c) m).length = m.length := by
  induction ws generalizing m with
  | nil => simp
  | cons w ws ih =>
    rw [List.foldl_cons, ih, GoMap.length_insert_of_mem _ _ _ (h w (List.mem_cons_self _ _))]
    intro w' hw'
    rw [GoMap.mem_keys_insert]
    exact Or.inr (h w' (List.mem_cons_of_mem _ hw'))

theorem insertAll_eq_self (c : F64) (ws : List String) (m : GoMap String F64)
    (h : ∀ w ∈ ws, m.find? w = some c) :
    ws.foldl (fun v w => GoMap.insert v w c) m = m := by
  induction ws with
  | nil => simp
  | cons w ws ih =>
    rw [List.foldl_cons, GoMap.insert_eq_self _ _ _ (h w (List.mem_cons_self _ _))]
    exact ih (fun w' hw' => h w' (List.mem_cons_of_mem _ hw'))

theorem values_insertAll (c : F64) (ws : List String) (m : GoMap String F64) (P : F64 → Prop)
    (hc : P c) (hm : ∀ p ∈ m, P p.2) :
    ∀ p ∈ ws.foldl (fun v w => GoMap.insert v w c) m, P p.2 := by
  induction ws generalizing m with
  | nil => simpa using hm
  | cons w ws ih =>
    rw [List.foldl_cons]
    apply ih
    intro p hp
    rcases GoMap.mem_insert _ _ _ _ hp with h | h
    · rw [h]; exact hc
    · exact hm p h

/-! ## The copy of `Dict` -/

theorem mem_keys_copy (D acc : GoMap String F64) (x : String) :
    x ∈ (D.foldl (fun v kv => GoMap.insert v kv.1 kv.2) acc).keys ↔ x ∈ D.keys ∨ x ∈ acc.keys := by
  induction D generalizing acc with
  | nil => simp [GoMap.keys]
  | cons p D ih =>
    rw [List.foldl_cons, ih, GoMap.mem_keys_insert]
    simp only [GoMap.keys, List.map_cons, List.mem_cons]
    tauto

theorem values_copy (D acc : GoMap String F64) (P : F64 → Prop)
    (hD : ∀ p ∈ D, P p.2) (hacc : ∀ p ∈ acc, P p.2) :
    ∀ p ∈ D.foldl (fun v kv => GoMap.insert v kv.1 kv.2) acc, P p.2 := by
  induction D generalizing acc with
  | nil => simpa using hacc
  | cons q D ih =>
    rw [List.foldl_cons]
    apply ih _ (fun p hp => hD p (List.mem_cons_of_mem _ hp))
    intro p hp
    rcases GoMap.mem_insert _ _ _ _ hp with h | h
    · rw [h]; exact hD q (List.mem_cons_self _ _)
    · exact hacc p h

/-! ## The vocabulary -/

/-- The loop of `MakeDict` over the tweets it visits. -/
theorem makeDict_eq (Dict : GoMap String F64) (sr : SearchResponse) :
    MakeDict Dict sr = (sr.Tweets.drop 1).foldl
      (fun d t => (Fields t.Text).foldl (fun d w => GoMap.insert d w F64.zero) d) Dict := rfl

theorem mem_keys_dictLoop (ts : List Tweet) (D : GoMap String F64) (x : String) :
    x ∈ (ts.foldl (fun d t => (Fields t.Text).foldl (fun d w => GoMap.insert d w F64.zero) d) D).keys ↔
      x ∈ D.keys ∨ ∃ t ∈ ts, x ∈ Fields t.Text := by
  induction ts generalizing D with
  | nil => simp
  | cons t ts ih =>
    rw [List.foldl_cons, ih, mem_keys_insertAll]
    simp only [List.mem_cons, exists_eq_or_imp]
    tauto

theorem find?_dictLoop_keep (ts : List Tweet) (D : GoMap String F64) (x : String)
    (h : D.find? x = some F64.zero) :
    (ts.foldl (fun d t => (Fields t.Text).foldl (fun d w => GoMap.insert d w F64.zero) d) D).find? x =
      some F64.zero := by
  induction ts generalizing D with
  | nil => simpa using h
  | cons t ts ih =>
    rw [List.foldl_cons]
    apply ih
    rw [find?_insertAll]
    split
    · rfl
    · exact h

theorem find?_dictLoop (ts : List Tweet) (D : GoMap String F64) (t : Tweet) (ht : t ∈ ts)
    (x : String) (hx : x ∈ Fields t.Text) :
    (ts.foldl (fun d t => (Fields t.Text).foldl (fun d w => GoMap.insert d w F64.zero) d) D).find? x =
      some F64.zero := by
  induction ts generalizing D with
  | nil => simp at ht
  | cons t' ts ih =>
    rw [List.foldl_cons]
    rcases List.mem_cons.mp ht with h | h
    · subst h
      apply find?_dictLoop_keep
      rw [find?_insertAll]
      simp [hx]
    · exact ih _ h

theorem dictLoop_eq_self (ts : List Tweet) (D : GoMap String F64)
    (h : ∀ t ∈ ts, ∀ x ∈ Fields t.Text, D.find? x = some F64.zero) :
    ts.foldl (fun d t => (Fields t.Text).foldl (fun d w => GoMap.insert d w F64.zero) d) D = D := by
  induction ts with
  | nil => simp
  | cons t ts ih =>
    rw [List.foldl_cons, insertAll_eq_self _ _ _ (h t (List.mem_cons_self _ _))]
    exact ih (fun t' ht' => h t' (List.mem_cons_of_mem _ ht'))

theorem values_dictLoop (ts : List Tweet) (D : GoMap String F64)
    (hD : ∀ p ∈ D, p.2 = F64.zero) :
    ∀ p ∈ ts.foldl (fun d t => (Fields t.Text).foldl (fun d w => GoMap.insert d w F64.zero) d) D,
      p.2 = F64.zero := by
  induction ts generalizing D with
  | nil => simpa using hD
  | cons t ts ih =>
    rw [List.foldl_cons]
    exact ih _ (values_insertAll _ _ _ (fun v => v = F64.zero) rfl hD)

/-- Running `MakeDict` again on the vocabulary it produced changes nothing. -/
theorem makeDict_idem (Dict : GoMap String F64) (sr : SearchResponse) :
    MakeDict (MakeDict Dict sr) sr = MakeDict Dict sr := by
  rw [makeDict_eq (MakeDict Dict sr)]
  apply dictLoop_eq_self
  intro t ht x hx
  exact find?_dictLoop _ _ t ht x hx

/-- Every word of a tweet that `MakeDict` visits is a key of the vocabulary. -/
theorem words_mem_makeDict (Dict : GoMap String F64) (sr : SearchResponse) (t : Tweet)
    (ht : t ∈ sr.Tweets.drop 1) (x : String) (hx : x ∈ Fields t.Text) :
    x ∈ (MakeDict Dict sr).keys := by
  rw [makeDict_eq, mem_keys_dictLoop]
  exact Or.inr ⟨t, ht, hx⟩

/-! ## The vector of a tweet -/

theorem mem_keys_makeVector (D : GoMap String F64) (t : Tweet) (x : String) :
    x ∈ (makeVector D t).keys ↔ x ∈ Fields t.Text ∨ x ∈ D.keys := by
  unfold makeVector
  rw [mem_keys_insertAll, mem_keys_copy]
  simp [GoMap.keys]

theorem length_makeVector (D : GoMap String F64) (t : Tweet)
    (h : ∀ x ∈ Fields t.Text, x ∈ D.keys) :
    (makeVector D t).length = (D.foldl (fun v kv => GoMap.insert v kv.1 kv.2) []).length := by
  unfold makeVector
  apply length_insertAll
  intro w hw
  rw [mem_keys_copy]
  exact Or.inl (h w hw)

theorem find?_makeVector (D : GoMap String F64) (t : Tweet) (x : String)
    (hD : ∀ p ∈ D, p.2 = F64.zero) (hx : x ∈ (makeVector D t).keys) :
    (makeVector D t).find? x = some (if x ∈ Fields t.Text then F64.one else F64.zero) := by
  unfold makeVector at hx ⊢
  rw [find?_insertAll]
  by_cases hw : x ∈ Fields t.Text
  · simp [hw]
  · simp only [hw, if_false]
    rw [mem_keys_insertAll] at hx
    rcases hx with hx | hx
    · exact absurd hx hw
    · obtain ⟨v, hv⟩ := GoMap.find?_isSome_of_mem_keys _ _ hx
      have hz : v = F64.zero :=
        values_copy D [] (fun v => v = F64.zero) hD (by simp) (x, v) (GoMap.mem_of_find? _ _ _ hv)
      rw [hv, hz]

/-! ## The clustering loop never fails -/

theorem Good.length_eq {D : GoMap String F64} {e : ResultElement} (h : Good D e) :
    e.Vector.length = (D.foldl (fun v kv => GoMap.insert v kv.1 kv.2) []).length := by
  rw [h.1]
  exact length_makeVector D e.OneTweet h.2

theorem distance_ok (D a b : GoMap String F64) (h : a.length = b.length) :
    ∃ d, Distance D a b = .ok d := by
  unfold Distance
  simp [h]

theorem mem_slice (resultMap : GoMap Nat (List ResultElement)) (j : Nat) (e : ResultElement)
    (h : e ∈ resultMap.slice j) : ∃ p ∈ resultMap, e ∈ p.2 := by
  unfold GoMap.slice at h
  cases hf : resultMap.find? j with
  | none => simp [hf] at h
  | some ms =>
    rw [hf] at h
    exact ⟨(j, ms), GoMap.mem_of_find? _ _ _ hf, h⟩

theorem scanMembers_ok (g : Globals) (v : GoMap String F64) (es : List ResultElement) (k : Nat)
    (h : ∀ e ∈ es, e.Vector.length = v.length) : ∃ r, scanMembers g v es k = .ok r := by
  induction es generalizing k with
  | nil => exact ⟨none, rfl⟩
  | cons e es ih =>
    obtain ⟨d, hd⟩ := distance_ok g.Dict e.Vector v (h e (List.mem_cons_self _ _))
    unfold scanMembers
    rw [hd]
    by_cases hgt : F64.gt d g.Correlation = true
    · exact ⟨some k, by simp [hgt]⟩
    · obtain ⟨r, hr⟩ := ih (k + 1) (fun e' he' => h e' (List.mem_cons_of_mem _ he'))
      exact ⟨r, by simp [hgt, hr]⟩

theorem scanClusters_ok (g : Globals) (resultMap : GoMap Nat (List ResultElement))
    (v : GoMap String F64) (js : List Nat)
    (h : ∀ p ∈ resultMap, ∀ e ∈ p.2, e.Vector.length = v.length) :
    ∃ r, scanClusters g resultMap v js = .ok r := by
  induction js with
  | nil => exact ⟨none, rfl⟩
  | cons j js ih =>
    have hs : ∀ e ∈ resultMap.slice j, e.Vector.length = v.length := by
      intro e he
      obtain ⟨p, hp, hep⟩ := mem_slice resultMap j e he
      exact h p hp e hep
    obtain ⟨r, hr⟩ := scanMembers_ok g v (resultMap.slice j) 0 hs
    unfold scanClusters
    rw [hr]
    cases r with
    | some k => exact ⟨some (j, k), rfl⟩
    | none =>
      obtain ⟨r', hr'⟩ := ih
      exact ⟨r', hr'⟩

theorem allGood_appendTo (D : GoMap String F64) (resultMap : GoMap Nat (List ResultElement))
    (k : Nat) (e : ResultElement) (hrm : AllGood D resultMap) (he : Good D e) :
    AllGood D (appendTo resultMap k e) := by
  intro p hp e' he'
  unfold appendTo at hp
  rcases GoMap.mem_insert _ _ _ _ hp with h | h
  · rw [h] at he'
    rcases List.mem_append.mp he' with h1 | h1
    · obtain ⟨q, hq, heq⟩ := mem_slice resultMap k e' h1
      exact hrm q hq e' heq
    · rw [List.mem_singleton.mp h1]
      exact he
  · exact hrm p h e' he'

/-- One pass of the outer loop succeeds, keeps `Dict` and `Correlation`, and keeps every
member `Good`. -/
theorem relationStep_ok (st : GoMap Nat (List ResultElement) × Globals) (t : Tweet)
    (hrm : AllGood st.2.Dict st.1) (ht : ∀ x ∈ Fields t.Text, x ∈ st.2.Dict.keys) :
    ∃ st', relationStep st t = .ok st' ∧ st'.2.Dict = st.2.Dict ∧
      st'.2.Correlation = st.2.Correlation ∧ AllGood st.2.Dict st'.1 := by
  have hgood : Good st.2.Dict ⟨t, makeVector st.2.Dict t⟩ := ⟨rfl, ht⟩
  have hlen : ∀ p ∈ st.1, ∀ e ∈ p.2, e.Vector.length = (makeVector st.2.Dict t).length := by
    intro p hp e he
    rw [(hrm p hp e he).length_eq, length_makeVector _ _ ht]
  obtain ⟨r, hr⟩ := scanClusters_ok st.2 st.1 (makeVector st.2.Dict t) (List.range st.2.Count) hlen
  unfold relationStep
  simp only [hr]
  cases r with
  | some jk => exact ⟨_, rfl, rfl, rfl, allGood_appendTo _ _ _ _ hrm hgood⟩
  | none => exact ⟨_, rfl, rfl, rfl, allGood_appendTo _ _ _ _ hrm hgood⟩

theorem relationLoop_ok (ts : List Tweet) (st : GoMap Nat (List ResultElement) × Globals)
    (hrm : AllGood st.2.Dict st.1) (hts : ∀ t ∈ ts, ∀ x ∈ Fields t.Text, x ∈ st.2.Dict.keys) :
    ∃ st', relationLoop ts st = .ok st' ∧ st'.2.Dict = st.2.Dict ∧
      st'.2.Correlation = st.2.Correlation ∧ AllGood st.2.Dict st'.1 := by
  induction ts generalizing st with
  | nil => exact ⟨st, rfl, rfl, rfl, hrm⟩
  | cons t ts ih =>
    obtain ⟨st1, h1, hd1, hc1, hg1⟩ := relationStep_ok st t hrm (hts t (List.mem_cons_self _ _))
    have hts1 : ∀ t' ∈ ts, ∀ x ∈ Fields t'.Text, x ∈ st1.2.Dict.keys := by
      intro t' ht' x hx
      rw [hd1]
      exact hts t' (List.mem_cons_of_mem _ ht') x hx
    obtain ⟨st2, h2, hd2, hc2, hg2⟩ := ih st1 (hd1 ▸ hg1) hts1
    refine ⟨st2, ?_, hd2.trans hd1, hc2.trans hc1, ?_⟩
    · unfold relationLoop
      rw [h1]
      exact h2
    · rw [← hd1]
      exact hg2

/-- The run of `Cluster` always returns: the `Dict` it leaves is the vocabulary of
`MakeDict`, `Correlation` is unchanged, and every member is `Good` for that vocabulary. -/
theorem cluster_ok (g : Globals) (sr : SearchResponse) :
    ∃ st, Cluster g sr = .ok st ∧ st.2.Dict = MakeDict g.Dict sr ∧
      st.2.Correlation = g.Correlation ∧ AllGood (MakeDict g.Dict sr) st.1 := by
  unfold Cluster CalculateRelation
  exact relationLoop_ok (sr.Tweets.drop 1) ([], { g with Dict := MakeDict g.Dict sr })
    (by intro p hp; simp at hp)
    (fun t ht x hx => words_mem_makeDict g.Dict sr t ht x hx)

/-! ## The claims -/

/-- C1 (code defect): a document whose first match is a member of cluster `j` should be
appended to cluster `j`.  On `slipBatch`, after "a b" and "a b c" form cluster 0, the scan
for "b c d" first matches at cluster `j = 0`, member `k = 1`; the code appends the document
under key `k = 1`, so it ends in a cluster 1 and not in cluster 0. -/
theorem match_appended_under_member_index :
    relationLoop [sampleTweet "a b", sampleTweet "a b c"]
        ([], { slipGlobals with Count := 0 }) =
      .ok ([(0, [slipElement "a b", slipElement "a b c"])], slipGlobals) ∧
    scanClusters slipGlobals [(0, [slipElement "a b", slipElement "a b c"])]
        (slipElement "b c d").Vector (List.range slipGlobals.Count) = .ok (some (0, 1)) ∧
    relationStep ([(0, [slipElement "a b", slipElement "a b c"])], slipGlobals)
        (sampleTweet "b c d") =
      .ok ([(0, [slipElement "a b", slipElement "a b c"]), (1, [slipElement "b c d"])],
        slipGlobals) ∧
    (Cluster Globals.init slipBatch).map (fun st => memberTexts st.1) =
      .ok [(0, ["a b", "a b c"]), (1, ["b c d"])] := by
  decide!

/-- C2 (code defect): no document should be skipped.  For the texts "cat dog", "dog cat",
"fish boat" the run returns `{0: [doc2], 1: [doc3]}`: the first document is in no cluster,
and its words are counted by no vector. -/
theorem cluster_skips_first_document :
    Cluster Globals.init (sampleBatch ["cat dog", "dog cat", "fish boat"]) =
      .ok ([(0, [⟨sampleTweet "dog cat",
                  [("dog", F64.one), ("cat", F64.one), ("fish", F64.zero), ("boat", F64.zero)]⟩]),
            (1, [⟨sampleTweet "fish boat",
                  [("dog", F64.zero), ("cat", F64.zero), ("fish", F64.one), ("boat", F64.one)]⟩])],
           ⟨[("dog", F64.zero), ("cat", F64.zero), ("fish", F64.zero), ("boat", F64.zero)],
            Globals.init.Correlation, 2⟩) := by
  decide!

/-- C3 (code defect): a document that matches no member should start a cluster of its own.
On `crowdedBatch`, "b c d" was appended under key 1 while `Count` stayed 1; the scan for "z"
finds no match, no member of any cluster is within the threshold of "z", and "z" is stored
under key `Count = 1`, whose member list is then "b c d" followed by "z". -/
theorem new_cluster_reuses_occupied_id :
    relationLoop [sampleTweet "a b", sampleTweet "a b c", sampleTweet "b c d"]
        ([], { crowdedGlobals with Count := 0 }) =
      .ok ([(0, [crowdedElement "a b", crowdedElement "a b c"]), (1, [crowdedElement "b c d"])],
        crowdedGlobals) ∧
    scanClusters crowdedGlobals
        [(0, [crowdedElement "a b", crowdedElement "a b c"]), (1, [crowdedElement "b c d"])]
        (crowdedElement "z").Vector (List.range crowdedGlobals.Count) = .ok none ∧
    scanClusters crowdedGlobals
        [(0, [crowdedElement "a b", crowdedElement "a b c"]), (1, [crowdedElement "b c d"])]
        (crowdedElement "z").Vector [0, 1] = .ok none ∧
    relationStep
        ([(0, [crowdedElement "a b", crowdedElement "a b c"]), (1, [crowdedElement "b c d"])],
          crowdedGlobals) (sampleTweet "z") =
      .ok ([(0, [crowdedElement "a b", crowdedElement "a b c"]),
            (1, [crowdedElement "b c d", crowdedElement "z"])],
        { crowdedGlobals with Count := 2 }) ∧
    (Cluster Globals.init crowdedBatch).map (fun st => memberTexts st.1) =
      .ok [(0, ["a b", "a b c"]), (1, ["b c d", "z"])] := by
  decide!

/-- C4 (code defect): the cluster ids should be `0 .. c-1`, with id 0 for every non-empty
batch.  On `gapBatch` the ids of the returned mapping are 0 and 2; on a batch of one
document the returned mapping is empty. -/
theorem cluster_ids_not_dense :
    (Cluster Globals.init gapBatch).map (fun st => memberTexts st.1) =
      .ok [(0, ["a b", "a b", "a b c d"]), (2, ["c d"])] ∧
    (Cluster Globals.init gapBatch).map (fun st => st.1.keys) = .ok [0, 2] ∧
    (Cluster Globals.init (sampleBatch ["only"])).map (fun st => st.1) = .ok [] := by
  decide!

/-- C5 (counterexample): on the batch "x", "y" the first call returns `{0: [y]}` and leaves
`Count = 1`; the second call, started from the globals the first one left, returns
`{1: [y]}`. -/
theorem second_run_differs :
    Cluster Globals.init (sampleBatch ["x", "y"]) =
      .ok ([(0, [⟨sampleTweet "y", [("y", F64.one)]⟩])],
        ⟨[("y", F64.zero)], Globals.init.Correlation, 1⟩) ∧
    Cluster ⟨[("y", F64.zero)], Globals.init.Correlation, 1⟩ (sampleBatch ["x", "y"]) =
      .ok ([(1, [⟨sampleTweet "y", [("y", F64.one)]⟩])],
        ⟨[("y", F64.zero)], Globals.init.Correlation, 2⟩) ∧
    [(0, [(⟨sampleTweet "y", [("y", F64.one)]⟩ : ResultElement)])] ≠
      [(1, [⟨sampleTweet "y", [("y", F64.one)]⟩])] := by
  decide!

/-- C5 (amended): every run of `Cluster` returns, and a second call on the same batch that
starts from the `Dict` and `Correlation` the first call left, with `Count` put back to the
value it had before the first call, returns the same mapping and leaves the same globals. -/
theorem second_run_same_after_count_reset (g : Globals) (sr : SearchResponse) :
    ∃ resultMap g', Cluster g sr = .ok (resultMap, g') ∧
      Cluster { g' with Count := g.Count } sr = .ok (resultMap, g') := by
  obtain ⟨st, hst, hd, hc, _⟩ := cluster_ok g sr
  refine ⟨st.1, st.2, hst, ?_⟩
  have hg : ({ ({ st.2 with Count := g.Count } : Globals) with
      Dict := MakeDict ({ st.2 with Count := g.Count } : Globals).Dict sr } : Globals) =
      { g with Dict := MakeDict g.Dict sr } := by
    simp only [hd, hc, makeDict_idem]
  unfold Cluster at hst ⊢
  rw [hg]
  exact hst

/-- C6 (code defect): raising the threshold should never lower the number of cluster ids.
On `thresholdBatch` the run with threshold 0.25 returns three cluster ids and the run
with the higher threshold 0.5 returns two. -/
theorem higher_threshold_fewer_clusters :
    F64.gt Globals.init.Correlation quarter = true ∧
    (Cluster { Globals.init with Correlation := quarter } thresholdBatch).map
        (fun st => memberTexts st.1) =
      .ok [(0, ["a b c", "b c d", "c d e f"]), (1, ["z"]), (2, ["e f"])] ∧
    (Cluster Globals.init thresholdBatch).map (fun st => memberTexts st.1) =
      .ok [(0, ["a b c", "b c d", "e f"]), (1, ["c d e f", "z"])] := by
  decide!

/-- C7 (code defect): the vocabulary should hold every token of every document.  On the
batch "x", "y" the token "x" of the first document is not a key of `Dict` after
`MakeDict`, nor of the vector that `Cluster` produces. -/
theorem first_document_words_missing :
    Fields (sampleTweet "x").Text = ["x"] ∧
    MakeDict [] (sampleBatch ["x", "y"]) = [("y", F64.zero)] ∧
    Cluster Globals.init (sampleBatch ["x", "y"]) =
      .ok ([(0, [⟨sampleTweet "y", [("y", F64.one)]⟩])],
        ⟨[("y", F64.zero)], Globals.init.Correlation, 1⟩) := by
  decide!

/-- C8: started from a `Dict` whose values are all 0.0 (the only value the program ever
stores in it), `Cluster` returns, and every member of the returned mapping has a vector
whose key set is the key set of `Dict` after the run, with value 1.0 at the tokens of the
member's text and 0.0 at every other key. -/
theorem member_vector_over_vocabulary (g : Globals) (sr : SearchResponse)
    (hzero : ∀ p ∈ g.Dict, p.2 = F64.zero) :
    ∃ resultMap g', Cluster g sr = .ok (resultMap, g') ∧
      ∀ p ∈ resultMap, ∀ e ∈ p.2,
        (∀ w, w ∈ e.Vector.keys ↔ w ∈ g'.Dict.keys) ∧
        ∀ w ∈ g'.Dict.keys, e.Vector.find? w =
          some (if w ∈ Fields e.OneTweet.Text then F64.one else F64.zero) := by
  obtain ⟨st, hst, hd, _, hgood⟩ := cluster_ok g sr
  refine ⟨st.1, st.2, hst, ?_⟩
  intro p hp e he
  obtain ⟨hv, hwords⟩ := hgood p hp e he
  have hkeys : ∀ w, w ∈ e.Vector.keys ↔ w ∈ st.2.Dict.keys := by
    intro w
    rw [hv, hd, mem_keys_makeVector]
    constructor
    · rintro (h | h)
      · exact hwords w h
      · exact h
    · exact Or.inr
  refine ⟨hkeys, ?_⟩
  intro w hw
  have hw' : w ∈ (makeVector (MakeDict g.Dict sr) e.OneTweet).keys := by
    rw [← hv]
    exact (hkeys w).mpr hw
  rw [hv]
  exact find?_makeVector _ _ _ (values_dictLoop _ _ hzero) hw'

/-- C8 (witness): the statement at the initial globals and the batch "x", "y z", "z". -/
theorem member_vector_over_vocabulary_witness :
    (∀ p ∈ Globals.init.Dict, p.2 = F64.zero) ∧
    ∃ resultMap g', Cluster Globals.init (sampleBatch ["x", "y z", "z"]) = .ok (resultMap, g') ∧
      ∀ p ∈ resultMap, ∀ e ∈ p.2,
        (∀ w, w ∈ e.Vector.keys ↔ w ∈ g'.Dict.keys) ∧
        ∀ w ∈ g'.Dict.keys, e.Vector.find? w =
          some (if w ∈ Fields e.OneTweet.Text then F64.one else F64.zero) :=
  ⟨by decide, member_vector_over_vocabulary Globals.init (sampleBatch ["x", "y z", "z"])
    (by decide)⟩

/-- The slice `keys` of `Distance` starts with `len(Dict)` empty strings.  On a direct call
with two vectors that hold the key "" and one word in the global `Dict`, that key is
counted twice: `Distance` returns 2/(√3·√2) where the cosine similarity is 1/(√2·√1).
No vector that `CalculateRelation` builds holds the key "". -/
theorem distance_counts_empty_key_twice :
    GoMap.keys [("", F64.one), ("x", F64.one)] = GoMap.keys [("", F64.one), ("x", F64.zero)] ∧
    distanceKeys [("w", F64.zero)] [("", F64.one), ("x", F64.one)] = ["", "", "x"] ∧
    Distance [("w", F64.zero)] [("", F64.one), ("x", F64.one)] [("", F64.one), ("x", F64.zero)] =
      .ok (F64.fin false 7354347395230781 (-53)) ∧
    cosineSimilarity [("", F64.one), ("x", F64.one)] [("", F64.one), ("x", F64.zero)] =
      F64.fin false 6369051672525772 (-53) ∧
    Distance [] [("", F64.one), ("x", F64.one)] [("", F64.one), ("x", F64.zero)] =
      .ok (F64.fin false 6369051672525772 (-53)) := by
  decide!

/-- C10 (counterexample): the vectors `{x: 1}` and `{y: 1}` have the same number of keys
and different keys, and `Distance` does not fail on them: it returns NaN. -/
theorem distance_accepts_different_keys :
    GoMap.keys [("x", F64.one)] ≠ GoMap.keys [("y", F64.one)] ∧
    Distance [] [("x", F64.one)] [("y", F64.one)] = .ok F64.nan := by
  decide!

/-- C10 (amended): `Distance` takes its "Vector size does not match" branch exactly when
the two vectors have different numbers of keys, and returns a value exactly when they
have the same number of keys, whatever the keys are. -/
theorem distance_fails_iff_sizes_differ (Dict gDict lDict : GoMap String F64) :
    (Distance Dict gDict lDict = .error "Vector size does not match!\n" ↔
      gDict.length ≠ lDict.length) ∧
    ((∃ d, Distance Dict gDict lDict = .ok d) ↔ gDict.length = lDict.length) := by
  unfold Distance
  by_cases h : gDict.length = lDict.length
  · simp [h]
  · simp [h]

/-! ## Members and their order -/

theorem allMembers_appendTo (resultMap : GoMap Nat (List ResultElement)) (k : Nat)
    (e : ResultElement) :
    (allMembers (appendTo resultMap k e)).Perm (allMembers resultMap ++ [e]) := by
  unfold appendTo
  induction resultMap with
  | nil => simp [GoMap.insert, GoMap.slice, GoMap.find?, allMembers]
  | cons p m ih =>
    obtain ⟨k', ms⟩ := p
    by_cases hk : k' = k
    · simp only [GoMap.insert, GoMap.slice, GoMap.find?, hk, if_true, Option.getD_some,
        allMembers]
      rw [List.append_assoc, List.append_assoc]
      exact List.Perm.append_left ms List.perm_append_comm
    · have hs : GoMap.slice ((k', ms) :: m) k = GoMap.slice m k := by
        simp [GoMap.slice, GoMap.find?, hk]
      rw [hs]
      simp only [GoMap.insert, hk, if_false, allMembers]
      rw [List.append_assoc]
      exact List.Perm.append_left ms ih

/-- A pass of the outer loop that returns has appended the member built for the tweet
under some key. -/
theorem relationStep_appends (st st' : GoMap Nat (List ResultElement) × Globals) (t : Tweet)
    (h : relationStep st t = .ok st') :
    ∃ k, st'.1 = appendTo st.1 k ⟨t, makeVector st.2.Dict t⟩ := by
  unfold relationStep at h
  cases hsc : scanClusters st.2 st.1 (makeVector st.2.Dict t) (List.range st.2.Count) with
  | error msg => simp [hsc] at h
  | ok r =>
    cases r with
    | some jk =>
      simp only [hsc, Except.ok.injEq] at h
      exact ⟨jk.2, by rw [← h]⟩
    | none =>
      simp only [hsc, Except.ok.injEq] at h
      exact ⟨st.2.Count, by rw [← h]⟩

theorem relationStep_members (st st' : GoMap Nat (List ResultElement) × Globals) (t : Tweet)
    (h : relationStep st t = .ok st') :
    ((allMembers st'.1).map (fun e => e.OneTweet)).Perm
      ((allMembers st.1).map (fun e => e.OneTweet) ++ [t]) := by
  obtain ⟨k, hk⟩ := relationStep_appends st st' t h
  rw [hk]
  simpa using (allMembers_appendTo st.1 k ⟨t, makeVector st.2.Dict t⟩).map (fun e => e.OneTweet)

/-- When the loop returns, the tweets of the members are the tweets of the members it
started with and the tweets it visited, each once. -/
theorem relationLoop_members (ts : List Tweet) (st st' : GoMap Nat (List ResultElement) × Globals)
    (h : relationLoop ts st = .ok st') :
    ((allMembers st'.1).map (fun e => e.OneTweet)).Perm
      ((allMembers st.1).map (fun e => e.OneTweet) ++ ts) := by
  induction ts generalizing st with
  | nil =>
    simp only [relationLoop, Except.ok.injEq] at h
    subst h
    simp
  | cons t ts ih =>
    unfold relationLoop at h
    split at h
    · cases h
    · rename_i st1 h1
      have h2 := ih st1 h
      have h3 := relationStep_members st st1 t h1
      refine h2.trans ?_
      have := h3.append_right ts
      simpa using this

theorem slice_appendTo_sublist (resultMap : GoMap Nat (List ResultElement)) (k : Nat)
    (e : ResultElement) (pre : List Tweet)
    (h : ∀ p ∈ resultMap, (p.2.map (fun e => e.OneTweet)).Sublist pre) :
    ∀ p ∈ appendTo resultMap k e,
      (p.2.map (fun e => e.OneTweet)).Sublist (pre ++ [e.OneTweet]) := by
  intro p hp
  unfold appendTo at hp
  rcases GoMap.mem_insert _ _ _ _ hp with hp | hp
  · rw [hp]
    simp only [List.map_append, List.map_cons, List.map_nil]
    apply List.Sublist.append _ (List.Sublist.refl _)
    unfold GoMap.slice
    cases hf : resultMap.find? k with
    | none => simp
    | some ms => exact h (k, ms) (GoMap.mem_of_find? _ _ _ hf)
  · exact (h p hp).trans (List.sublist_append_left _ _)

theorem relationStep_sublist (st st' : GoMap Nat (List ResultElement) × Globals) (t : Tweet)
    (pre : List Tweet) (hst : ∀ p ∈ st.1, (p.2.map (fun e => e.OneTweet)).Sublist pre)
    (h : relationStep st t = .ok st') :
    ∀ p ∈ st'.1, (p.2.map (fun e => e.OneTweet)).Sublist (pre ++ [t]) := by
  obtain ⟨k, hk⟩ := relationStep_appends st st' t h
  rw [hk]
  exact slice_appendTo_sublist st.1 k ⟨t, makeVector st.2.Dict t⟩ pre hst

/-- When the loop returns, every cluster lists its tweets in the order of the visit. -/
theorem relationLoop_sublist (ts : List Tweet) (st st' : GoMap Nat (List ResultElement) × Globals)
    (pre : List Tweet) (hst : ∀ p ∈ st.1, (p.2.map (fun e => e.OneTweet)).Sublist pre)
    (h : relationLoop ts st = .ok st') :
    ∀ p ∈ st'.1, (p.2.map (fun e => e.OneTweet)).Sublist (pre ++ ts) := by
  induction ts generalizing st pre with
  | nil =>
    simp only [relationLoop, Except.ok.injEq] at h
    subst h
    simpa using hst
  | cons t ts ih =>
    unfold relationLoop at h
    split at h
    · cases h
    · rename_i st1 h1
      have h2 := ih st1 (pre ++ [t]) (relationStep_sublist st st1 t pre hst h1) h
      simpa using h2

/-! ## The vectors handed to `Distance` -/

theorem scanMembersCalls_mem (g : Globals) (v : GoMap String F64) (es : List ResultElement)
    (pair : GoMap String F64 × GoMap String F64) (h : pair ∈ scanMembersCalls g v es) :
    ∃ e ∈ es, pair = (e.Vector, v) := by
  induction es with
  | nil => simp [scanMembersCalls] at h
  | cons e es ih =>
    unfold scanMembersCalls at h
    rcases List.mem_cons.mp h with h | h
    · exact ⟨e, List.mem_cons_self _ _, h⟩
    · cases hd : Distance g.Dict e.Vector v with
      | error msg => simp [hd] at h
      | ok d =>
        by_cases hgt : F64.gt d g.Correlation = true
        · simp [hd, hgt] at h
        · simp only [hd, hgt] at h
          obtain ⟨e', he', hp⟩ := ih h
          exact ⟨e', List.mem_cons_of_mem _ he', hp⟩

theorem scanClustersCalls_mem (g : Globals) (resultMap : GoMap Nat (List ResultElement))
    (v : GoMap String F64) (js : List Nat) (pair : GoMap String F64 × GoMap String F64)
    (h : pair ∈ scanClustersCalls g resultMap v js) :
    ∃ p ∈ resultMap, ∃ e ∈ p.2, pair = (e.Vector, v) := by
  induction js with
  | nil => simp [scanClustersCalls] at h
  | cons j js ih =>
    unfold scanClustersCalls at h
    rcases List.mem_append.mp h with h | h
    · obtain ⟨e, he, hp⟩ := scanMembersCalls_mem g v _ pair h
      obtain ⟨p, hpm, hep⟩ := mem_slice resultMap j e he
      exact ⟨p, hpm, e, hep, hp⟩
    · cases hs : scanMembers g v (resultMap.slice j) 0 with
      | error msg => simp [hs] at h
      | ok r =>
        cases r with
        | some k => simp [hs] at h
        | none =>
          simp only [hs] at h
          exact ih h

/-- Every pair handed to `Distance` while the loop runs is the vector of a `Good` member
and the vector built for a tweet whose words are keys of `Dict`. -/
theorem relationLoopCalls_good (ts : List Tweet) (st : GoMap Nat (List ResultElement) × Globals)
    (hrm : AllGood st.2.Dict st.1) (hts : ∀ t ∈ ts, ∀ x ∈ Fields t.Text, x ∈ st.2.Dict.keys)
    (pair : GoMap String F64 × GoMap String F64) (h : pair ∈ relationLoopCalls ts st) :
    ∃ e t, Good st.2.Dict e ∧ (∀ x ∈ Fields t.Text, x ∈ st.2.Dict.keys) ∧
      pair = (e.Vector, makeVector st.2.Dict t) := by
  induction ts generalizing st with
  | nil => simp [relationLoopCalls] at h
  | cons t ts ih =>
    unfold relationLoopCalls at h
    rcases List.mem_append.mp h with h | h
    · obtain ⟨p, hp, e, he, hpair⟩ := scanClustersCalls_mem _ _ _ _ pair h
      exact ⟨e, t, hrm p hp e he, hts t (List.mem_cons_self _ _), hpair⟩
    · obtain ⟨st1, h1, hd1, _, hg1⟩ := relationStep_ok st t hrm (hts t (List.mem_cons_self _ _))
      simp only [h1] at h
      have hts1 : ∀ t' ∈ ts, ∀ x ∈ Fields t'.Text, x ∈ st1.2.Dict.keys := by
        intro t' ht' x hx
        rw [hd1]
        exact hts t' (List.mem_cons_of_mem _ ht') x hx
      obtain ⟨e, t', hge, ht', hpair⟩ := ih st1 (hd1 ▸ hg1) hts1 h
      rw [hd1] at hge ht' hpair
      exact ⟨e, t', hge, ht', hpair⟩

theorem Good.mem_keys_iff {D : GoMap String F64} {e : ResultElement} (h : Good D e)
    (w : String) : w ∈ e.Vector.keys ↔ w ∈ D.keys := by
  rw [h.1, mem_keys_makeVector]
  constructor
  · rintro (hw | hw)
    · exact h.2 w hw
    · exact hw
  · exact Or.inr

/-! ## Arithmetic on zero -/

theorem F64.roundScaled_zero (neg : Bool) (e : Int) :
    F64.roundScaled neg 0 e = F64.fin neg 0 (-1074) := by
  unfold F64.roundScaled
  split <;> simp [F64.roundRat]

theorem F64.mul_zero_left (y : F64) :
    F64.mul F64.zero y = F64.nan ∨ ∃ t, F64.mul F64.zero y = F64.fin t 0 (-1074) := by
  cases y with
  | nan => exact Or.inl rfl
  | inf t => exact Or.inl rfl
  | fin t m e =>
    refine Or.inr ⟨xor false t, ?_⟩
    simp [F64.mul, F64.zero, F64.roundScaled_zero]

theorem F64.mul_zero_right (y : F64) :
    F64.mul y F64.zero = F64.nan ∨ ∃ t, F64.mul y F64.zero = F64.fin t 0 (-1074) := by
  cases y with
  | nan => exact Or.inl rfl
  | inf t => exact Or.inl rfl
  | fin t m e =>
    refine Or.inr ⟨xor t false, ?_⟩
    simp [F64.mul, F64.zero, F64.roundScaled_zero]

theorem F64.add_zero_signedZero (t : Bool) :
    F64.add F64.zero (F64.fin t 0 (-1074)) = F64.zero := by
  cases t <;> decide!

/-- Adding a product with a zero factor to an accumulator that is 0.0 or NaN leaves it
0.0 or NaN. -/
theorem F64.add_zeroProduct (d q : F64) (hd : d = F64.zero ∨ d = F64.nan)
    (hq : q = F64.nan ∨ ∃ t, q = F64.fin t 0 (-1074)) :
    F64.add d q = F64.zero ∨ F64.add d q = F64.nan := by
  rcases hd with hd | hd
  · rcases hq with hq | ⟨t, hq⟩
    · rw [hd, hq]; exact Or.inr rfl
    · rw [hd, hq]; exact Or.inl (F64.add_zero_signedZero t)
  · rw [hd]; exact Or.inr (by cases q <;> rfl)

/-- The quotient of 0.0 or NaN by a zero or NaN is NaN. -/
theorem F64.div_zeroProduct (d q : F64) (hd : d = F64.zero ∨ d = F64.nan)
    (hq : q = F64.nan ∨ ∃ t, q = F64.fin t 0 (-1074)) : F64.div d q = F64.nan := by
  rcases hd with hd | hd
  · rcases hq with hq | ⟨t, hq⟩
    · rw [hd, hq]; rfl
    · rw [hd, hq]; simp [F64.div, F64.zero]
  · rw [hd]; cases q <;> rfl

theorem valueAt_zero (a : GoMap String F64) (h : ∀ p ∈ a, p.2 = F64.zero) (k : String) :
    a.valueAt k = F64.zero := by
  unfold GoMap.valueAt
  cases hf : a.find? k with
  | none => rfl
  | some x => exact h (k, x) (GoMap.mem_of_find? _ _ _ hf)

theorem distanceLoop_left_zero (a b : GoMap String F64) (ha : ∀ p ∈ a, p.2 = F64.zero)
    (ks : List String) (acc : F64 × F64 × F64)
    (h1 : acc.1 = F64.zero ∨ acc.1 = F64.nan) (h2 : acc.2.1 = F64.zero) :
    ((ks.foldl (distanceStep a b) acc).1 = F64.zero ∨
      (ks.foldl (distanceStep a b) acc).1 = F64.nan) ∧
    (ks.foldl (distanceStep a b) acc).2.1 = F64.zero := by
  induction ks generalizing acc with
  | nil => exact ⟨h1, h2⟩
  | cons k ks ih =>
    rw [List.foldl_cons]
    apply ih
    · simp only [distanceStep, valueAt_zero a ha k]
      exact F64.add_zeroProduct _ _ h1 (F64.mul_zero_left _)
    · simp only [distanceStep, valueAt_zero a ha k, h2]
      decide!

theorem distanceLoop_right_zero (a b : GoMap String F64) (hb : ∀ p ∈ b, p.2 = F64.zero)
    (ks : List String) (acc : F64 × F64 × F64)
    (h1 : acc.1 = F64.zero ∨ acc.1 = F64.nan) (h2 : acc.2.2 = F64.zero) :
    ((ks.foldl (distanceStep a b) acc).1 = F64.zero ∨
      (ks.foldl (distanceStep a b) acc).1 = F64.nan) ∧
    (ks.foldl (distanceStep a b) acc).2.2 = F64.zero := by
  induction ks generalizing acc with
  | nil => exact ⟨h1, h2⟩
  | cons k ks ih =>
    rw [List.foldl_cons]
    apply ih
    · simp only [distanceStep, valueAt_zero b hb k]
      exact F64.add_zeroProduct _ _ h1 (F64.mul_zero_right _)
    · simp only [distanceStep, valueAt_zero b hb k, h2]
      decide!

/-- C14: `Cluster` returns, and every cluster of the returned mapping lists its members in
the order they were processed: the tweets of a cluster, read along its list, sit at
strictly increasing positions of the batch (they form a subsequence of it). -/
theorem cluster_members_in_batch_order (g : Globals) (sr : SearchResponse) :
    ∃ resultMap g', Cluster g sr = .ok (resultMap, g') ∧
      ∀ p ∈ resultMap, (p.2.map (fun e => e.OneTweet)).Sublist sr.Tweets := by
  obtain ⟨st, hst, _⟩ := cluster_ok g sr
  refine ⟨st.1, st.2, hst, ?_⟩
  intro p hp
  unfold Cluster CalculateRelation at hst
  have h := relationLoop_sublist (sr.Tweets.drop 1) _ st [] (by intro q hq; simp at hq) hst p hp
  exact h.trans (by simpa using List.drop_sublist 1 sr.Tweets)

/-- C15: for the empty batch `Cluster` takes no error branch, returns the empty mapping
and leaves `Dict`, `Correlation` and `Count` as they were. -/
theorem cluster_empty_batch (g : Globals) : Cluster g ⟨[]⟩ = .ok ([], g) := by
  cases g
  rfl

/-- C17: when every word of the tweets after the first is a key of `Dict` (as it is after
`MakeDict`), `CalculateRelation` returns, and the tweets of the members of its mapping,
taken over all clusters together, are the tweets at positions 1, 2, ..., n-1 of the
batch, each once and unchanged; a batch of at most one tweet gives the empty mapping. -/
theorem calculateRelation_members (g : Globals) (sr : SearchResponse)
    (hdict : ∀ t ∈ sr.Tweets.drop 1, ∀ w ∈ Fields t.Text, w ∈ g.Dict.keys) :
    ∃ resultMap g', CalculateRelation g sr = .ok (resultMap, g') ∧
      ((allMembers resultMap).map (fun e => e.OneTweet)).Perm (sr.Tweets.drop 1) ∧
      (sr.Tweets.length ≤ 1 → resultMap = []) := by
  obtain ⟨st, hst, _⟩ := relationLoop_ok (sr.Tweets.drop 1) ([], g)
    (by intro p hp; simp at hp) hdict
  refine ⟨st.1, st.2, hst, ?_, ?_⟩
  · simpa [allMembers] using relationLoop_members _ _ _ hst
  · intro hlen
    have hdrop : sr.Tweets.drop 1 = [] := List.drop_eq_nil_of_le hlen
    rw [hdrop] at hst
    simp only [relationLoop, Except.ok.injEq] at hst
    rw [← hst]

/-- C17 (witness): the statement at the batch "x", "y", "y" with `Dict = {y: 0}`. -/
theorem calculateRelation_members_witness :
    ∃ resultMap g',
      CalculateRelation { Globals.init with Dict := [("y", F64.zero)] }
        (sampleBatch ["x", "y", "y"]) = .ok (resultMap, g') ∧
      ((allMembers resultMap).map (fun e => e.OneTweet)).Perm
        ((sampleBatch ["x", "y", "y"]).Tweets.drop 1) ∧
      ((sampleBatch ["x", "y", "y"]).Tweets.length ≤ 1 → resultMap = []) :=
  calculateRelation_members { Globals.init with Dict := [("y", F64.zero)] }
    (sampleBatch ["x", "y", "y"]) (by decide)

/-- C18: for every batch and every initial `Dict` and `Count`, the run of `Cluster`
returns without reaching the failure branch of `Distance`, and every pair of vectors
handed to `Distance` during the run has the key set of `Dict` after `MakeDict` on both
sides, and the same number of keys. -/
theorem cluster_never_mismatches (g : Globals) (sr : SearchResponse) :
    (∃ st, Cluster g sr = .ok st) ∧
    ∀ pair ∈ clusterCalls g sr,
      (∀ w, w ∈ pair.1.keys ↔ w ∈ (MakeDict g.Dict sr).keys) ∧
      (∀ w, w ∈ pair.2.keys ↔ w ∈ (MakeDict g.Dict sr).keys) ∧
      pair.1.length = pair.2.length := by
  constructor
  · obtain ⟨st, hst, _⟩ := cluster_ok g sr
    exact ⟨st, hst⟩
  · intro pair hpair
    obtain ⟨e, t, hge, ht, hp⟩ := relationLoopCalls_good (sr.Tweets.drop 1)
      ([], { g with Dict := MakeDict g.Dict sr }) (by intro p hp; simp at hp)
      (fun t ht x hx => words_mem_makeDict g.Dict sr t ht x hx) pair hpair
    have hgt : Good (MakeDict g.Dict sr) ⟨t, makeVector (MakeDict g.Dict sr) t⟩ := ⟨rfl, ht⟩
    rw [hp]
    refine ⟨hge.mem_keys_iff, hgt.mem_keys_iff, ?_⟩
    exact hge.length_eq.trans hgt.length_eq.symm

/-- C11 (counterexample): for the zero vector `{x: 0}` and the vector `{x: 1}`, which
have the same key, `Distance` returns NaN and not 0.0. -/
theorem distance_zero_vector_is_nan :
    GoMap.keys [("x", F64.zero)] = GoMap.keys [("x", F64.one)] ∧
    Distance [] [("x", F64.zero)] [("x", F64.one)] = .ok F64.nan ∧
    Distance [] [("x", F64.zero)] [("x", F64.one)] ≠ .ok F64.zero := by
  decide!

/-- C11 (amended): for two vectors with the same number of keys (in particular with
identical key sets) of which at least one has all its coordinates 0.0, `Distance` does
not fail and returns NaN, the result of the division 0.0 / 0.0. -/
theorem distance_zero_vector_returns_nan (Dict a b : GoMap String F64)
    (hlen : a.length = b.length)
    (hzero : (∀ p ∈ a, p.2 = F64.zero) ∨ (∀ p ∈ b, p.2 = F64.zero)) :
    Distance Dict a b = .ok F64.nan := by
  unfold Distance
  simp only [hlen, ne_eq, not_true_eq_false, if_false, Except.ok.injEq]
  rcases hzero with ha | hb
  · obtain ⟨h1, h2⟩ := distanceLoop_left_zero a b ha (distanceKeys Dict a)
      (F64.zero, F64.zero, F64.zero) (Or.inl rfl) rfl
    rw [h2]
    exact F64.div_zeroProduct _ _ h1 (F64.mul_zero_left _)
  · obtain ⟨h1, h2⟩ := distanceLoop_right_zero a b hb (distanceKeys Dict a)
      (F64.zero, F64.zero, F64.zero) (Or.inl rfl) rfl
    rw [h2]
    exact F64.div_zeroProduct _ _ h1 (F64.mul_zero_right _)

/-- C11 (witness): the amended statement at `Dict = {w: 0}`, the zero vector
`{x: 0, y: 0}` and the vector `{x: 1, y: 0}`. -/
theorem distance_zero_vector_returns_nan_witness :
    Distance [("w", F64.zero)] [("x", F64.zero), ("y", F64.zero)]
      [("x", F64.one), ("y", F64.zero)] = .ok F64.nan :=
  distance_zero_vector_returns_nan [("w", F64.zero)] [("x", F64.zero), ("y", F64.zero)]
    [("x", F64.one), ("y", F64.zero)] rfl (Or.inl (by decide))

/-- C13 (code defect): a document that is within the threshold of no scanned member
should start a new cluster.  The comparison itself is strict: "a" and "a b c d" are at
distance exactly 0.5 and end in two clusters.  But on `crowdedBatch` the document "z",
at distance 0.0 from both scanned members, is appended to the existing cluster 1, which
holds "b c d": the mapping has the keys 0 and 1 before and after the step. -/
theorem unmatched_document_joins_existing_cluster :
    (Cluster Globals.init (sampleBatch ["skip", "a", "a b c d"])).map
        (fun st => memberTexts st.1) = .ok [(0, ["a"]), (1, ["a b c d"])] ∧
    Distance (MakeDict [] (sampleBatch ["skip", "a", "a b c d"]))
        (makeVector (MakeDict [] (sampleBatch ["skip", "a", "a b c d"])) (sampleTweet "a"))
        (makeVector (MakeDict [] (sampleBatch ["skip", "a", "a b c d"]))
          (sampleTweet "a b c d")) = .ok Globals.init.Correlation ∧
    F64.gt Globals.init.Correlation Globals.init.Correlation = false ∧
    Distance crowdedGlobals.Dict (crowdedElement "a b").Vector (crowdedElement "z").Vector =
      .ok F64.zero ∧
    Distance crowdedGlobals.Dict (crowdedElement "a b c").Vector (crowdedElement "z").Vector =
      .ok F64.zero ∧
    F64.gt Globals.init.Correlation F64.zero = true ∧
    GoMap.keys
        [(0, [crowdedElement "a b", crowdedElement "a b c"]), (1, [crowdedElement "b c d"])] =
      [0, 1] ∧
    (relationStep
        ([(0, [crowdedElement "a b", crowdedElement "a b c"]), (1, [crowdedElement "b c d"])],
          crowdedGlobals) (sampleTweet "z")).map (fun st => memberTexts st.1) =
      .ok [(0, ["a b", "a b c"]), (1, ["b c d", "z"])] := by
  decide!

/-- C16 (code defect): `PrintResult` should render every cluster of the mapping.  On
`slipBatch` the mapping has the cluster ids 0 and 1 while `Count` is 1, and `PrintResult`
renders cluster 0 only: "b c d" is on no line, and there is one `#` line for two ids. -/
theorem printResult_omits_cluster :
    (Cluster Globals.init slipBatch).map (fun st => (memberTexts st.1, st.2.Count)) =
      .ok ([(0, ["a b", "a b c"]), (1, ["b c d"])], 1) ∧
    (Cluster Globals.init slipBatch).map (fun st => PrintResult st.2 st.1) =
      .ok ["0\t\t\ta b\n", "0\t\t\ta b c\n", "#\n"] := by
  decide!

/-! ## Exact rounding -/

namespace F64

theorem bitLenAux_zero (fuel : Nat) : bitLenAux fuel 0 = 0 := by
  cases fuel <;> simp [bitLenAux]

theorem bitLenAux_eq (fuel n b : Nat) (hfuel : n ≤ fuel) (hlo : 2 ^ b ≤ n)
    (hhi : n < 2 ^ (b + 1)) : bitLenAux fuel n = b + 1 := by
  induction fuel generalizing n b with
  | zero =>
    have : 0 < 2 ^ b := Nat.two_pow_pos _
    omega
  | succ fuel ih =>
    have hpos : 0 < 2 ^ b := Nat.two_pow_pos _
    have hn : n ≠ 0 := by omega
    simp only [bitLenAux, hn, if_false]
    cases b with
    | zero =>
      have h1 : n = 1 := by simp at hlo hhi; omega
      subst h1
      simp [bitLenAux_zero]
    | succ b =>
      have := ih (n / 2) b (by omega) (by rw [Nat.pow_succ] at hlo; omega)
        (by rw [Nat.pow_succ] at hhi; omega)
      rw [this]

theorem bitLen_eq (n b : Nat) (hlo : 2 ^ b ≤ n) (hhi : n < 2 ^ (b + 1)) : bitLen n = b + 1 :=
  bitLenAux_eq n n b (Nat.le_refl n) hlo hhi

theorem bitLen_two_pow (b : Nat) : bitLen (2 ^ b) = b + 1 :=
  bitLen_eq (2 ^ b) b (Nat.le_refl _) (Nat.pow_lt_pow_right (by decide) (Nat.lt_succ_self b))

theorem scaled_div_two_pow (m k a : Nat) (hk : k ≤ a) :
    m * 2 ^ k * 2 ^ (a + 1 - k) / 2 ^ a = 2 * m := by
  rw [Nat.mul_assoc, ← Nat.pow_add, show k + (a + 1 - k) = a + 1 by omega, Nat.pow_succ,
    ← Nat.mul_assoc, Nat.mul_comm (m * 2 ^ a) 2, ← Nat.mul_assoc,
    Nat.mul_div_cancel _ (Nat.two_pow_pos _)]

set_option exponentiation.threshold 2000 in
/-- A value `m * 2^k / 2^1074` with a 53-bit `m` and `k < 1074` is a `float64`, and
rounding returns it. -/
theorem roundRat_exact (neg : Bool) (m k : Nat) (hm1 : 2 ^ 52 ≤ m) (hm2 : m < 2 ^ 53)
    (hk : k < 1074) :
    roundRat neg (m * 2 ^ k) (2 ^ 1074) = fin neg m ((k : Int) - 1074) := by
  have hkpos : 0 < 2 ^ k := Nat.two_pow_pos _
  have hn : m * 2 ^ k ≠ 0 := by
    have : 0 < m := by omega
    exact Nat.ne_of_gt (Nat.mul_pos this hkpos)
  have hb1 : bitLen (m * 2 ^ k) = 52 + k + 1 := by
    apply bitLen_eq
    · rw [Nat.pow_add]; exact Nat.mul_le_mul_right _ hm1
    · rw [show 52 + k + 1 = 53 + k by omega, Nat.pow_add]
      exact Nat.mul_lt_mul_of_pos_right hm2 hkpos
  have hb2 : bitLen (2 ^ 1074) = 1074 + 1 := bitLen_two_pow 1074
  have he1 : ((52 + k + 1 : Nat) : Int) - ((1074 + 1 : Nat) : Int) - 53 = (k : Int) - 1075 := by
    push_cast; omega
  have hneg1 : ¬ (0 : Int) ≤ (k : Int) - 1075 := by omega
  have hto1 : (-((k : Int) - 1075)).toNat = 1075 - k := by omega
  have hq1 : m * 2 ^ k * 2 ^ (1075 - k) / 2 ^ 1074 = 2 * m :=
    scaled_div_two_pow m k 1074 (by omega)
  have hge : ¬ 2 * m < 2 ^ 53 := by omega
  have he2 : (k : Int) - 1075 + 1 = (k : Int) - 1074 := by omega
  have hneg2 : ¬ (k : Int) - 1074 < -1074 := by omega
  have hneg3 : ¬ (0 : Int) ≤ (k : Int) - 1074 := by omega
  have hto2 : (-((k : Int) - 1074)).toNat = 1074 - k := by omega
  have hscale : m * 2 ^ k * 2 ^ (1074 - k) = m * 2 ^ 1074 := by
    rw [Nat.mul_assoc, ← Nat.pow_add, show k + (1074 - k) = 1074 by omega]
  have hq : m * 2 ^ 1074 / 2 ^ 1074 = m := Nat.mul_div_cancel _ (Nat.two_pow_pos _)
  have hr : m * 2 ^ 1074 % 2 ^ 1074 = 0 := Nat.mul_mod_left _ _
  have hden : ¬ ((2 : Nat) ^ 1074 < 2 * 0 ∨ 2 * 0 = (2 : Nat) ^ 1074 ∧ m % 2 = 1) := by
    have : 0 < (2 : Nat) ^ 1074 := Nat.two_pow_pos _
    omega
  have hm3 : ¬ m = 2 ^ 53 := by omega
  have he3 : ¬ (971 : Int) < (k : Int) - 1074 := by omega
  unfold roundRat
  simp only [hn, if_false, hb1, hb2, he1, hneg1, hto1, hq1, hge, he2, hneg2, hneg3, hto2,
    hscale, hq, hr, hden, hm3, he3]

theorem add_zero_normal (m : Nat) (e : Int) (hm1 : 2 ^ 52 ≤ m) (hm2 : m < 2 ^ 53)
    (he1 : -1074 ≤ e) (he2 : e < 0) : add (fin false m e) zero = fin false m e := by
  obtain ⟨k, hk⟩ : ∃ k : Nat, e = (k : Int) - 1074 := ⟨(e + 1074).toNat, by omega⟩
  subst hk
  have hk : k < 1074 := by omega
  have hlo : (if (k : Int) - 1074 ≤ -1074 then (k : Int) - 1074 else -1074) = -1074 := by
    split <;> omega
  have hto : ((k : Int) - 1074 - -1074).toNat = k := by omega
  have hpos : 0 < m * 2 ^ k := Nat.mul_pos (by omega) (Nat.two_pow_pos _)
  have hsum : ((m * 2 ^ k : Nat) : Int) + ((0 * 2 ^ ((-1074 : Int) - -1074).toNat : Nat) : Int) =
      ((m * 2 ^ k : Nat) : Int) := by simp
  have hne : ¬ ((m * 2 ^ k : Nat) : Int) = 0 := by
    have : (0 : Int) < ((m * 2 ^ k : Nat) : Int) := by exact_mod_cast hpos
    omega
  have hnn : ¬ ((m * 2 ^ k : Nat) : Int) < 0 := by
    have : (0 : Int) < ((m * 2 ^ k : Nat) : Int) := by exact_mod_cast hpos
    omega
  unfold zero add
  simp only [hlo, scaledInt, hto, hsum, hne, if_false, hnn, decide_False, Int.natAbs_ofNat,
    Bool.false_eq_true]
  unfold roundScaled
  simp only [show ¬ (0 : Int) ≤ -1074 by decide, if_false, show (-(-1074 : Int)).toNat = 1074 by decide]
  exact roundRat_exact false m k hm1 hm2 hk

theorem add_zero_of_isSmallNormal (x : F64) (h : isSmallNormal x = true) : add x zero = x := by
  cases x with
  | nan => simp [isSmallNormal] at h
  | inf s => simp [isSmallNormal] at h
  | fin s m e =>
    cases s with
    | true => simp [isSmallNormal] at h
    | false =>
      simp only [isSmallNormal, Bool.and_eq_true, decide_eq_true_eq] at h
      exact add_zero_normal m e h.1.1.1 h.1.1.2 h.1.2 h.2

end F64

/-! ## Sums of squares of 0/1 vectors -/

theorem ofNat_isSmallNormal : ∀ c < 141, 1 ≤ c → F64.isSmallNormal (F64.ofNat c) = true := by
  decide!

theorem accum_zero_exact (c : Nat) (hc : c < 141) :
    F64.add (F64.ofNat c) (F64.mul F64.zero F64.zero) = F64.ofNat c := by
  have hmul : F64.mul F64.zero F64.zero = F64.zero := by decide!
  rw [hmul]
  by_cases h0 : c = 0
  · subst h0
    decide!
  · exact F64.add_zero_of_isSmallNormal _ (ofNat_isSmallNormal c hc (by omega))

theorem accum_one_exact : ∀ c < 140,
    F64.add (F64.ofNat c) (F64.mul F64.one F64.one) = F64.ofNat (c + 1) := by
  decide!

theorem selfSimilarity_near_one : ∀ n < 141, 1 ≤ n →
    (selfSimilarity n = F64.one ∨ selfSimilarity n = F64.fin false (2 ^ 53 - 1) (-53) ∨
      selfSimilarity n = F64.fin false (2 ^ 53 - 2) (-53) ∨
      selfSimilarity n = F64.fin false (2 ^ 52 + 1) (-52)) := by
  decide!

theorem valueAt_of_mem (v : GoMap String F64) (hkeys : v.keys.Nodup) (p : String × F64)
    (hp : p ∈ v) : v.valueAt p.1 = p.2 := by
  induction v with
  | nil => simp at hp
  | cons q m ih =>
    obtain ⟨k', x'⟩ := q
    simp only [GoMap.keys, List.map_cons, List.nodup_cons] at hkeys
    rcases List.mem_cons.mp hp with h | h
    · subst h
      simp [GoMap.valueAt, GoMap.find?]
    · have hne : k' ≠ p.1 := by
        intro heq
        exact hkeys.1 (heq ▸ List.mem_map_of_mem Prod.fst h)
      have := ih hkeys.2 h
      simpa [GoMap.valueAt, GoMap.find?, hne] using this

theorem map_valueAt_keys (v : GoMap String F64) (hkeys : v.keys.Nodup) :
    v.keys.map v.valueAt = v.map Prod.snd := by
  unfold GoMap.keys
  rw [List.map_map]
  exact List.map_congr_left (fun p hp => valueAt_of_mem v hkeys p hp)

theorem valueAt_of_not_mem (v : GoMap String F64) (k : String) (hk : k ∉ v.keys) :
    v.valueAt k = F64.zero := by
  unfold GoMap.valueAt
  cases hf : v.find? k with
  | none => rfl
  | some x =>
    exact absurd (List.mem_map_of_mem Prod.fst (GoMap.mem_of_find? _ _ _ hf)) hk

/-- With both arguments the same vector, the three accumulators of `Distance` stay equal:
each is the running sum of the squares of the values read. -/
theorem distanceLoop_self (v : GoMap String F64) (ks : List String) (s : F64) :
    ks.foldl (distanceStep v v) (s, s, s) =
      ((ks.map v.valueAt).foldl (fun s x => F64.add s (F64.mul x x)) s,
       (ks.map v.valueAt).foldl (fun s x => F64.add s (F64.mul x x)) s,
       (ks.map v.valueAt).foldl (fun s x => F64.add s (F64.mul x x)) s) := by
  induction ks generalizing s with
  | nil => rfl
  | cons k ks ih =>
    rw [List.foldl_cons, List.map_cons, List.foldl_cons]
    exact ih _

/-- The sum of the squares of values that are all 0.0 or 1.0 is the exact count of the
ones, as long as the count stays within 140. -/
theorem sumSquares_exact (xs : List F64) (c : Nat)
    (h01 : ∀ x ∈ xs, x = F64.zero ∨ x = F64.one) (hmax : c + xs.count F64.one ≤ 140) :
    xs.foldl (fun s x => F64.add s (F64.mul x x)) (F64.ofNat c) =
      F64.ofNat (c + xs.count F64.one) := by
  induction xs generalizing c with
  | nil => simp
  | cons x xs ih =>
    have hxs : ∀ y ∈ xs, y = F64.zero ∨ y = F64.one :=
      fun y hy => h01 y (List.mem_cons_of_mem _ hy)
    rw [List.foldl_cons]
    rcases h01 x (List.mem_cons_self _ _) with hx | hx
    · subst hx
      have hcount : (F64.zero :: xs).count F64.one = xs.count F64.one := by
        rw [List.count_cons_of_ne (by decide)]
      rw [hcount] at hmax ⊢
      rw [accum_zero_exact c (by omega)]
      exact ih c hxs hmax
    · subst hx
      have hcount : (F64.one :: xs).count F64.one = xs.count F64.one + 1 :=
        List.count_cons_self _ _
      rw [hcount] at hmax ⊢
      rw [accum_one_exact c (by omega), ih (c + 1) hxs (by omega)]
      congr 1
      omega

theorem count_one_replicate_zero (n : Nat) (xs : List F64) :
    (List.replicate n F64.zero ++ xs).count F64.one = xs.count F64.one := by
  rw [List.count_append, List.count_replicate]
  simp [show ¬ (F64.zero = F64.one) by decide]

/-- C12 (counterexample): for the vector `{a: 1, b: 1}` of a two-word document,
`Distance(v, v)` is 0.9999999999999998, because `√2 · √2` rounds to 2.0000000000000004. -/
theorem distance_self_not_one :
    Distance [] [("a", F64.one), ("b", F64.one)] [("a", F64.one), ("b", F64.one)] =
      .ok (F64.fin false (2 ^ 53 - 2) (-53)) ∧
    F64.mul (F64.sqrt (F64.ofNat 2)) (F64.sqrt (F64.ofNat 2)) = F64.fin false (2 ^ 52 + 1) (-51) ∧
    F64.fin false (2 ^ 53 - 2) (-53) ≠ F64.one := by
  decide!

/-- C12 (amended): for every vector with distinct keys, none of them the empty string,
whose coordinates are 0.0 or 1.0 with between 1 and 140 of them 1.0, `Distance(v, v)`
returns one of the four `float64` values from 1 - 2^-52 to 1 + 2^-52 (1.0 up to the
rounding of `√n · √n`), and returns exactly 1.0 when one coordinate is 1.0. -/
theorem distance_self_near_one (Dict v : GoMap String F64)
    (hkeys : v.keys.Nodup) (hempty : "" ∉ v.keys)
    (h01 : ∀ p ∈ v, p.2 = F64.zero ∨ p.2 = F64.one)
    (hpos : 1 ≤ ones v) (hmax : ones v ≤ 140) :
    ∃ d, Distance Dict v v = .ok d ∧
      (d = F64.one ∨ d = F64.fin false (2 ^ 53 - 1) (-53) ∨
        d = F64.fin false (2 ^ 53 - 2) (-53) ∨ d = F64.fin false (2 ^ 52 + 1) (-52)) ∧
      (ones v = 1 → d = F64.one) := by
  have hvals : (distanceKeys Dict v).map v.valueAt =
      List.replicate Dict.length F64.zero ++ v.map Prod.snd := by
    unfold distanceKeys
    rw [List.map_append, List.map_replicate, valueAt_of_not_mem v "" hempty,
      map_valueAt_keys v hkeys]
  have h01' : ∀ x ∈ List.replicate Dict.length F64.zero ++ v.map Prod.snd,
      x = F64.zero ∨ x = F64.one := by
    intro x hx
    rcases List.mem_append.mp hx with hx | hx
    · exact Or.inl (List.eq_of_mem_replicate hx)
    · obtain ⟨p, hp, hpx⟩ := List.mem_map.mp hx
      exact hpx ▸ h01 p hp
  have hcount : (List.replicate Dict.length F64.zero ++ v.map Prod.snd).count F64.one =
      ones v := count_one_replicate_zero _ _
  have hzero : F64.ofNat 0 = F64.zero := by decide!
  have hsum := sumSquares_exact _ 0 h01' (by rw [hcount]; omega)
  rw [hcount, Nat.zero_add, hzero] at hsum
  have hloop := distanceLoop_self v (distanceKeys Dict v) F64.zero
  rw [hvals, hsum] at hloop
  have hd : Distance Dict v v = .ok (selfSimilarity (ones v)) := by
    unfold Distance selfSimilarity
    simp only [ne_eq, not_true_eq_false, if_false, hloop]
  refine ⟨selfSimilarity (ones v), hd, selfSimilarity_near_one (ones v) (by omega) hpos, ?_⟩
  intro h1
  rw [h1]
  decide!

/-- C12 (witness): the amended statement at `Dict = {w: 0}` and the vector
`{a: 1, b: 0, c: 1}`. -/
theorem distance_self_near_one_witness :
    ∃ d, Distance [("w", F64.zero)] [("a", F64.one), ("b", F64.zero), ("c", F64.one)]
        [("a", F64.one), ("b", F64.zero), ("c", F64.one)] = .ok d ∧
      (d = F64.one ∨ d = F64.fin false (2 ^ 53 - 1) (-53) ∨
        d = F64.fin false (2 ^ 53 - 2) (-53) ∨ d = F64.fin false (2 ^ 52 + 1) (-52)) ∧
      (ones [("a", F64.one), ("b", F64.zero), ("c", F64.one)] = 1 → d = F64.one) :=
  distance_self_near_one [("w", F64.zero)] [("a", F64.one), ("b", F64.zero), ("c", F64.one)]
    (by decide) (by decide) (by decide) (by decide) (by decide)

/-! ## `Distance` and the cosine similarity -/

/-- No token of `strings.Fields` is the empty string. -/
theorem empty_not_mem_fieldsAux (cs cur : List Char) : "" ∉ fieldsAux cs cur := by
  have htok : ∀ l : List Char, l ≠ [] → ¬ "" = String.mk l.reverse := by
    intro l hl h
    have hdata : [] = l.reverse := congrArg String.data h
    exact hl (List.reverse_eq_nil_iff.mp hdata.symm)
  induction cs generalizing cur with
  | nil =>
    unfold fieldsAux
    by_cases hcur : cur = []
    · simp [hcur]
    · simp only [hcur, if_false, List.mem_singleton]
      exact htok cur hcur
  | cons c cs ih =>
    unfold fieldsAux
    by_cases hsp : isSpace c = true
    · by_cases hcur : cur = []
      · simp only [hsp, hcur, if_true]
        exact ih []
      · simp only [hsp, hcur, if_true, if_false, List.mem_cons, not_or]
        exact ⟨htok cur hcur, ih []⟩
    · simp only [hsp, if_false]
      exact ih (c :: cur)

theorem empty_not_mem_fields (s : String) : "" ∉ Fields s :=
  empty_not_mem_fieldsAux s.data []

/-- The vector built for a tweet has the key "" only if `Dict` has it. -/
theorem empty_not_mem_keys_makeVector (D : GoMap String F64) (t : Tweet)
    (h : "" ∉ D.keys) : "" ∉ (makeVector D t).keys := by
  rw [mem_keys_makeVector]
  rintro (hw | hw)
  · exact empty_not_mem_fields _ hw
  · exact h hw

/-- The loop of `Distance` accumulates its three sums independently. -/
theorem distanceLoop_split (a b : GoMap String F64) (ks : List String) (x y z : F64) :
    ks.foldl (distanceStep a b) (x, y, z) =
      (ks.foldl (fun s k => F64.add s (F64.mul (a.valueAt k) (b.valueAt k))) x,
       ks.foldl (fun s k => F64.add s (F64.mul (a.valueAt k) (a.valueAt k))) y,
       ks.foldl (fun s k => F64.add s (F64.mul (b.valueAt k) (b.valueAt k))) z) := by
  induction ks generalizing x y z with
  | nil => rfl
  | cons k ks ih =>
    simp only [List.foldl_cons]
    exact ih _ _ _

/-- The empty strings at the head of `keys` leave the three sums at 0.0 when neither
vector has the key "". -/
theorem distanceLoop_empty_keys (a b : GoMap String F64) (ha : "" ∉ a.keys)
    (hb : "" ∉ b.keys) (n : Nat) :
    (List.replicate n "").foldl (distanceStep a b) (F64.zero, F64.zero, F64.zero) =
      (F64.zero, F64.zero, F64.zero) := by
  have hstep : distanceStep a b (F64.zero, F64.zero, F64.zero) "" =
      (F64.zero, F64.zero, F64.zero) := by
    simp only [distanceStep, valueAt_of_not_mem a "" ha, valueAt_of_not_mem b "" hb]
    decide!
  induction n with
  | zero => rfl
  | succ n ih =>
    rw [List.replicate_succ, List.foldl_cons, hstep]
    exact ih

/-- C9: for every content of the global `Dict` and every two vectors with identical key
sets that do not hold the empty string as a key (no vector the program builds holds it,
as `strings.Fields` yields no empty token), `Distance` returns the cosine similarity
`dot(a,b) / (norm(a) * norm(b))` with every sum taken once over each shared key. -/
theorem distance_eq_cosineSimilarity (Dict gDict lDict : GoMap String F64)
    (hkeys : gDict.keys = lDict.keys) (hempty : "" ∉ gDict.keys) :
    Distance Dict gDict lDict = .ok (cosineSimilarity gDict lDict) := by
  have hlen : gDict.length = lDict.length := by
    have := congrArg List.length hkeys
    simpa [GoMap.keys] using this
  have hempty' : "" ∉ lDict.keys := hkeys ▸ hempty
  unfold Distance cosineSimilarity distanceKeys
  simp only [hlen, ne_eq, not_true_eq_false, if_false, List.foldl_append,
    distanceLoop_empty_keys gDict lDict hempty hempty', distanceLoop_split]

/-- C9 (witness): the statement at `Dict = {w: 0}` and the vectors `{x: 1, y: 1}` and
`{x: 1, y: 0}`. -/
theorem distance_eq_cosineSimilarity_witness :
    Distance [("w", F64.zero)] [("x", F64.one), ("y", F64.one)]
        [("x", F64.one), ("y", F64.zero)] =
      .ok (cosineSimilarity [("x", F64.one), ("y", F64.one)] [("x", F64.one), ("y", F64.zero)]) :=
  distance_eq_cosineSimilarity [("w", F64.zero)] [("x", F64.one), ("y", F64.one)]
    [("x", F64.one), ("y", F64.zero)] (by decide) (by decide)
